import Mathlib

/-!
Verification of the telegram-link-to-discord message ingestion pipeline.

Strings are modelled as `List Char` (Python strings are sequences of Unicode
code points).  External collaborators (the Telegram client, the Discord sink,
senders) are modelled as explicit inputs: the lists returned by
`client.get_messages` become function arguments, and the fallible context
fetch becomes an `Except`-valued oracle.  The regular-expression scan
`url_pattern.findall` is an opaque parameter `findall`; every concrete
instantiation used below is justified against the pattern by hand.
-/

namespace TgLink

/-- Convert a Lean string literal to the `List Char` representation used
throughout the development. -/
def s2l (s : String) : List Char := s.data

/-- Whitespace predicate used by Python `str.strip()` (the ASCII whitespace
characters; the additional Unicode space code points behave identically and
never occur in the inputs considered here). -/
def py_is_space (c : Char) : Bool :=
  (c == ' ') || (c == '\t') || (c == '\n') || (c == '\r') || (c == '\x0b') || (c == '\x0c')

/-- Drop the longest run of characters satisfying `p` from the end of the
list (the trailing half of Python `strip`/`rstrip`). -/
def drop_trail (p : Char → Bool) (l : List Char) : List Char :=
  ((l.reverse).dropWhile p).reverse

/-- Python `str.strip()` with no arguments: remove leading and trailing
whitespace. -/
def py_strip (l : List Char) : List Char :=
  drop_trail py_is_space (l.dropWhile py_is_space)

/-- Python `str.rstrip(cs)`: remove trailing characters drawn from `cs`. -/
def py_rstrip (cs : List Char) (l : List Char) : List Char :=
  drop_trail (fun c => cs.contains c) l

/-- The character set of `rstrip(".,、。)］】>」」」")` in `_normalize_url`
(source: tl_fetcher.py line 172); written with the duplicated characters of
the source literal. -/
def trail_chars : List Char :=
  ['.', ',', '、', '。', ')', '］', '】', '>', '」', '」', '」']

/-- The literal prefix checked by `url.startswith("www.")`. -/
def www_marker : List Char := ['w', 'w', 'w', '.']

/-- The literal `"https://"` prepended to `www.`-URLs. -/
def https_scheme : List Char := ['h', 't', 't', 'p', 's', ':', '/', '/']

/-- Embedding of `TelegramMessageExtractor._normalize_url`
(tl_fetcher.py lines 154-175): on a non-empty string, strip surrounding
whitespace, strip trailing punctuation from a fixed set, and prepend
`https://` when the result starts with `www.`. -/
def normalize_url (url : List Char) : List Char :=
  if url = [] then url
  else if www_marker.isPrefixOf (py_rstrip trail_chars (py_strip url)) then
    https_scheme ++ py_rstrip trail_chars (py_strip url)
  else py_rstrip trail_chars (py_strip url)

/-- Does `normalize_url`'s output end in a whitespace character?  Used to
state the amended idempotence claim. -/
def ends_with_space (l : List Char) : Bool :=
  match l.reverse with
  | [] => false
  | c :: _ => py_is_space c

-- ========================================
-- URL extraction data model
-- ========================================

/-- The four URL sources of `extract_all_urls`. -/
inductive SrcType where
  | TEXT
  | ENTITY
  | BUTTON
  | PREVIEW
deriving DecidableEq, Repr

/-- Embedding of the `URLInfo` dataclass (tl_fetcher.py lines 23-37). -/
structure URLInfo where
  source_type : SrcType
  url : List Char
  text : Option (List Char) := none
  position : Option (Nat × Nat) := none
deriving DecidableEq, Repr

/-- Sender record delivered by `message.get_sender()`
(external collaborator); all attributes optional. -/
structure SenderRec where
  first_name : Option (List Char) := none
  username : Option (List Char) := none
  sid : Option Nat := none
deriving DecidableEq, Repr

/-- Telegram message entities relevant to `_extract_entity_urls`:
`MessageEntityTextUrl` (explicit target URL plus a text span) and
`MessageEntityUrl` (a bare URL span); everything else is ignored. -/
inductive TgEntity where
  | text_url (url : List Char) (offset len : Nat)
  | url_entity (offset len : Nat)
  | other_entity
deriving DecidableEq, Repr

/-- Inline-keyboard buttons relevant to `_extract_button_urls`:
URL-carrying buttons (`KeyboardButtonUrl`/`KeyboardButtonUrlAuth`) versus
everything else. -/
inductive TgButton where
  | url_button (url : Option (List Char)) (label : List Char)
  | other_button
deriving DecidableEq, Repr

/-- The `webpage` object inside `MessageMediaWebPage`. -/
structure WebPageRec where
  url : Option (List Char) := none
  title : Option (List Char) := none
deriving DecidableEq, Repr

/-- Message media as seen by `_extract_preview_urls`: a link preview
(`MessageMediaWebPage`, whose `webpage` may be absent) or any other media. -/
inductive TgMedia where
  | web_page (page : Option WebPageRec)
  | other_media
deriving DecidableEq, Repr

/-- Embedding of a fetched Telegram message: the attributes read by the
pipeline (`id`, `date`, `raw_text`/`text`, `sender`, `entities`,
`reply_markup` rows, `media`).  `date` is an abstract timestamp (`Nat`). -/
structure RawMsg where
  id : Nat
  date : Nat
  raw_text : Option (List Char) := none
  text_attr : Option (List Char) := none
  sender : Option SenderRec := none
  entities : List TgEntity := []
  reply_markup : Option (List (List TgButton)) := none
  media : Option TgMedia := none
deriving DecidableEq, Repr

/-- Embedding of `TelegramMessageExtractor._get_text`
(tl_fetcher.py lines 140-152): `(raw_text or text or "") or ""`, where
Python `or` falls through on empty strings. -/
def get_text (m : RawMsg) : List Char :=
  let a := m.raw_text.getD []
  if a ≠ [] then a else m.text_attr.getD []

/-- Sender display-name policy shared by `get_tg_results` and
`get_context_messages`: `first_name or username or str(id)`, with the
literal `"不明"` when the sender object is absent. -/
def resolve_sender_name (s : Option SenderRec) : List Char :=
  match s with
  | none => s2l "不明"
  | some r =>
    let f := r.first_name.getD []
    if f ≠ [] then f
    else
      let u := r.username.getD []
      if u ≠ [] then u
      else
        match r.sid with
        | some i => s2l (Nat.repr i)
        | none => s2l "不明"

-- ========================================
-- The four source scans (tl_fetcher.py lines 181-279)
-- ========================================

/-- Embedding of `_extract_text_urls`: map the regex matches (delivered by
the opaque `findall` parameter standing for `url_pattern.findall`) to
TEXT-sourced normalized candidates. -/
def extract_text_urls (findall : List Char → List (List Char)) (text : List Char) :
    List URLInfo :=
  (findall text).map (fun mt => { source_type := .TEXT, url := normalize_url mt })

/-- Embedding of `_extract_entity_urls`: a `MessageEntityTextUrl` with a
non-empty target URL yields it together with the covered text span; a
`MessageEntityUrl` yields the span itself as both URL and text. -/
def extract_entity_urls (m : RawMsg) : List URLInfo :=
  let text := get_text m
  (m.entities.map (fun e =>
    match e with
    | .text_url u off len =>
      if u ≠ [] then
        [{ source_type := .ENTITY, url := normalize_url u,
           text := some ((text.drop off).take len) }]
      else []
    | .url_entity off len =>
      let frag := (text.drop off).take len
      [{ source_type := .ENTITY, url := normalize_url frag, text := some frag }]
    | .other_entity => [])).flatten

/-- Embedding of `_extract_button_urls`: every URL-carrying inline-keyboard
button with a truthy URL yields a BUTTON candidate with its label and
(row, col) position. -/
def extract_button_urls (m : RawMsg) : List URLInfo :=
  match m.reply_markup with
  | none => []
  | some rows =>
    ((rows.enum).map (fun ri_row =>
      ((ri_row.2.enum).map (fun ci_b =>
        match ci_b.2 with
        | .url_button ou lab =>
          match ou with
          | some u =>
            if u ≠ [] then
              [{ source_type := .BUTTON, url := normalize_url u,
                 text := some lab, position := some (ri_row.1, ci_b.1) }]
            else []
          | none => []
        | .other_button => [])).flatten)).flatten

/-- Embedding of `_extract_preview_urls`: a `MessageMediaWebPage` with a
present webpage and truthy URL yields one PREVIEW candidate carrying the
page title. -/
def extract_preview_urls (m : RawMsg) : List URLInfo :=
  match m.media with
  | some (.web_page (some p)) =>
    (match p.url with
     | some u => if u ≠ [] then
         [{ source_type := .PREVIEW, url := normalize_url u, text := p.title }]
       else []
     | none => [])
  | _ => []

/-- Embedding of the deduplication loop of `extract_all_urls`
(tl_fetcher.py lines 303-311): one linear pass with a seen-set of URL
strings, keeping the first occurrence of each. -/
def dedup_urls : List URLInfo → List (List Char) → List URLInfo
  | [], _ => []
  | u :: rest, seen =>
    if u.url ∈ seen then dedup_urls rest seen
    else u :: dedup_urls rest (u.url :: seen)

/-- Embedding of `extract_all_urls` (tl_fetcher.py lines 281-311): the four
scans concatenated in source order TEXT, ENTITY, BUTTON, PREVIEW, then
deduplicated with an initially empty seen-set. -/
def extract_all_urls (findall : List Char → List (List Char)) (m : RawMsg) :
    List URLInfo :=
  dedup_urls
    (extract_text_urls findall (get_text m) ++ extract_entity_urls m ++
      extract_button_urls m ++ extract_preview_urls m) []

end TgLink

namespace TgLink

-- ========================================
-- Context window fetcher (tl_fetcher.py lines 317-385)
-- ========================================

/-- One entry of a context window: the dictionary
`{id, date, sender_name, text}` built in `get_context_messages`. -/
structure CtxEntry where
  id : Nat
  date : Nat
  sender_name : List Char
  text : List Char
deriving DecidableEq, Repr

/-- The `{'before': [...], 'after': [...]}` dictionary returned by
`get_context_messages`. -/
structure ContextPair where
  before : List CtxEntry
  after : List CtxEntry
deriving DecidableEq, Repr

/-- Embedding of the collection loop shared by the before and after sides of
`get_context_messages`: walk the fetched neighbors, and append an entry for
each message that is not the pivot, while the accumulator is below the
requested bound, whose text is non-empty and longer than 6 characters. -/
def ctx_collect (message_id bound : Nat) : List RawMsg → List CtxEntry → List CtxEntry
  | [], acc => acc
  | m :: ms, acc =>
    if m.id ≠ message_id ∧ acc.length < bound then
      let text := get_text m
      if text ≠ [] ∧ 6 < text.length then
        ctx_collect message_id bound ms
          (acc ++ [{ id := m.id, date := m.date,
                     sender_name := resolve_sender_name m.sender, text := text }])
      else ctx_collect message_id bound ms acc
    else ctx_collect message_id bound ms acc

/-- Embedding of `get_context_messages`: the two neighbor fetches performed
through the Telegram client are passed in as `before_messages` (native
newest-first order) and `after_messages` (ascending order); the before side
is reversed into oldest-first order after collection. -/
def get_context_messages (before_messages after_messages : List RawMsg)
    (message_id : Nat) (before after : Nat) : ContextPair :=
  { before := (ctx_collect message_id before before_messages []).reverse,
    after := ctx_collect message_id after after_messages [] }

-- ========================================
-- Poller tick (main.py lines 52-138 and 167-195)
-- ========================================

/-- The per-URL dictionary built inside `get_tg_results`
(main.py lines 114-121): empty associated text and absent positions are
collapsed to `None` by the Python truthiness test. -/
structure UrlDict where
  source_type : SrcType
  url : List Char
  text : Option (List Char)
  position : Option (Nat × Nat)
deriving DecidableEq, Repr

/-- Conversion from a `URLInfo` to its dictionary form
(`url_info.text if url_info.text else None`). -/
def to_url_dict (u : URLInfo) : UrlDict :=
  { source_type := u.source_type, url := u.url,
    text := match u.text with
            | some t => if t ≠ [] then some t else none
            | none => none,
    position := u.position }

/-- The enriched per-message dictionary assembled by `get_tg_results`
(main.py lines 103-123). -/
structure MsgDict where
  id : Nat
  date : Nat
  sender_name : List Char
  text : List Char
  url_count : Nat
  urls : List UrlDict
  context_before : List CtxEntry
  context_after : List CtxEntry
deriving DecidableEq, Repr

/-- The fallible external calls made while enriching one pivot message: the
two neighbor fetches of `get_context_messages` for a given pivot id.  An
`Except.error` models any exception raised during the context fetch. -/
structure TickEnv where
  ctxFetch : Nat → Except Unit (List RawMsg × List RawMsg)

/-- Build the enriched dictionary for one URL-bearing pivot message. -/
def mk_msg_dict (m : RawMsg) (urls : List URLInfo) (ctx : ContextPair) : MsgDict :=
  { id := m.id, date := m.date,
    sender_name := resolve_sender_name m.sender,
    text := get_text m,
    url_count := urls.length,
    urls := urls.map to_url_dict,
    context_before := ctx.before,
    context_after := ctx.after }

/-- Embedding of the message loop of `get_tg_results` (main.py lines 80-123):
messages whose extracted URL set is empty are skipped; for the rest the
context fetch runs, and any exception it raises aborts the whole loop (there
is no per-message handler in the source). -/
def process_messages (findall : List Char → List (List Char)) (env : TickEnv) :
    List RawMsg → Except Unit (List MsgDict)
  | [] => .ok []
  | m :: ms =>
    let urls := extract_all_urls findall m
    if urls = [] then process_messages findall env ms
    else
      match env.ctxFetch m.id with
      | .error e => .error e
      | .ok (bmsgs, amsgs) =>
        let ctx := get_context_messages bmsgs amsgs m.id 2 5
        match process_messages findall env ms with
        | .error e => .error e
        | .ok rest => .ok (mk_msg_dict m urls ctx :: rest)

/-- Embedding of `get_tg_results` (main.py lines 52-138): on success the
enriched messages are sorted ascending by date (Python `list.sort` is
stable, as is insertion sort); the function-level `except` handler turns any
exception into the empty list. -/
def get_tg_results (findall : List Char → List (List Char)) (env : TickEnv)
    (fetched : List RawMsg) : List MsgDict :=
  match process_messages findall env fetched with
  | .ok r => r.insertionSort (fun a b => a.date ≤ b.date)
  | .error _ => []

/-- Python `max(msg['id'] for msg in results)` over a non-empty list
(main.py lines 175 and 192). -/
def py_max : List Nat → Nat
  | [] => 0
  | x :: xs => xs.foldl Nat.max x

/-- The maximum id of a batch of enriched messages. -/
def py_max_ids (l : List MsgDict) : Nat := py_max (l.map (fun d => d.id))

/-- Embedding of one iteration of the `on_ready` polling loop
(main.py lines 167-195): run `get_tg_results` on the fetched messages and,
when the resulting batch is non-empty, set `last_processed_id` to the
maximum id of the batch; otherwise leave the cursor unchanged.  `none`
models the initial unset cursor. -/
def tick (findall : List Char → List (List Char)) (env : TickEnv)
    (fetched : List RawMsg) (cursor : Option Nat) : Option Nat :=
  let results := get_tg_results findall env fetched
  if results = [] then cursor else some (py_max_ids results)

/-- One poll cycle's external data: the fallible context oracle and the
messages returned by the bounded fetch. -/
structure TickStep where
  env : TickEnv
  fetched : List RawMsg

/-- Iterate `tick` over a sequence of poll cycles. -/
def run_ticks (findall : List Char → List (List Char)) :
    Option Nat → List TickStep → Option Nat
  | c, [] => c
  | c, s :: ss => run_ticks findall (tick findall s.env s.fetched c) ss

/-- The fetch contract of the claims: whenever the cursor is set to `C`, the
bounded fetch of the next tick returns only messages with id strictly
greater than `C` (Telegram `min_id` semantics). -/
def valid_run (findall : List Char → List (List Char)) :
    Option Nat → List TickStep → Prop
  | _, [] => True
  | c, s :: ss =>
    (∀ v, c = some v → ∀ m ∈ s.fetched, v < m.id) ∧
      valid_run findall (tick findall s.env s.fetched c) ss

/-- Order on cursor values: an unset cursor precedes everything; a set
cursor may only be compared to a set cursor with a larger or equal value. -/
def cursor_le : Option Nat → Option Nat → Prop
  | none, _ => True
  | some _, none => False
  | some a, some b => a ≤ b

end TgLink

namespace TgLink

-- ========================================
-- Discord forwarder (discord_bot.py lines 70-140)
-- ========================================

/-- Python `str.replace(old, "")` restricted to deletion: remove the
non-overlapping occurrences of `old`, scanning left to right.  The `fuel`
argument only drives structural recursion; every step consumes at least one
character, so the initial fuel `l.length` supplied by `erase_all` is never
exhausted and the zero-fuel equation is unreachable. -/
def erase_all_fuel (old : List Char) : Nat → List Char → List Char
  | _, [] => []
  | 0, l => l
  | fuel + 1, c :: cs =>
    if old.isPrefixOf (c :: cs) then erase_all_fuel old fuel (List.drop (old.length - 1) cs)
    else c :: erase_all_fuel old fuel cs

/-- Left-to-right deletion of the occurrences of `old`, with adequate fuel. -/
def erase_all (old l : List Char) : List Char := erase_all_fuel old l.length l

/-- Python `text.replace(url, '')` as used in `send_telegram_embeds`. -/
def py_replace_empty (t old : List Char) : List Char :=
  if old = [] then t else erase_all old t

/-- Embedding of the URL-stripping loop of `send_telegram_embeds`
(discord_bot.py lines 108-110): successively delete each extracted URL's
normalized string and strip surrounding whitespace. -/
def text_without_urls (text : List Char) (urls : List UrlDict) : List Char :=
  urls.foldl (fun acc u => py_strip (py_replace_empty acc u.url)) text

/-- One line of a rendered context block (discord_bot.py lines 103 and 128):
timestamp, sender name, and the text sliced to its first 100 characters. -/
def render_ctx_line (fmtHM : Nat → List Char) (e : CtxEntry) : List Char :=
  s2l "[" ++ fmtHM e.date ++ s2l "] " ++ e.sender_name ++ s2l ": " ++
    e.text.take 100 ++ s2l "\n"

/-- A rendered context block: the fenced header, one line per entry
accumulated with string concatenation, and the closing fence. -/
def render_ctx_block (header : List Char) (fmtHM : Nat → List Char)
    (entries : List CtxEntry) : List Char :=
  (entries.foldl (fun acc e => acc ++ render_ctx_line fmtHM e)
    (s2l "```\n" ++ header)) ++ s2l "```"

/-- The divider line sent before and after each message. -/
def divider_line : List Char := s2l "━━━━━━━━━━━━━━━━━━━━━━━━━━━━━━"

/-- The main message for one enriched record (discord_bot.py lines 113-114):
header with formatted date, then sender plus the URL-stripped body, or the
bare sender when the stripped body is empty. -/
def main_message (fmtMD : Nat → List Char) (msg : MsgDict) : List Char :=
  let body := text_without_urls msg.text msg.urls
  s2l "## 🐾ーーー" ++ fmtMD msg.date ++ s2l "頃の会話ーーーーーーーー\n" ++
    (if body ≠ [] then s2l "**" ++ msg.sender_name ++ s2l "**: " ++ body
     else s2l "**" ++ msg.sender_name ++ s2l "**")

/-- Embedding of the per-message body of `send_telegram_embeds`
(discord_bot.py lines 85-137): the ordered sequence of strings passed to
`channel.send` for one enriched record.  `fmtMD` and `fmtHM` stand for the
two `strftime` formats. -/
def send_one (fmtMD fmtHM : Nat → List Char) (msg : MsgDict) : List (List Char) :=
  [divider_line] ++
    (if msg.context_before ≠ [] then
      [render_ctx_block (s2l "📜 前の会話:\n") fmtHM msg.context_before] else []) ++
    [main_message fmtMD msg] ++
    msg.urls.map (fun u => u.url) ++
    (if msg.context_after ≠ [] then
      [render_ctx_block (s2l "📝 後の会話:\n") fmtHM msg.context_after] else []) ++
    [divider_line ++ s2l "\n"]

/-- Substring test used to state the body-stripping results. -/
def has_sub (hay needle : List Char) : Bool :=
  (List.range (hay.length + 1)).any (fun i => needle.isPrefixOf (hay.drop i))

-- ========================================
-- Concrete instances used by witnesses and counterexamples
-- ========================================

/-- A `findall` oracle for texts in which `url_pattern` has no match (all
texts used with it below are single dotless words or plain phrases such as
`hello!` or `see you later`, where the pattern's mandatory
`label(.label)+` core cannot match). -/
def fa_none : List Char → List (List Char) := fun _ => []

/-- A context oracle whose neighbor fetches always succeed and return no
neighbors. -/
def env_ok : TickEnv := ⟨fun _ => .ok ([], [])⟩

/-- A context oracle whose neighbor fetch always raises. -/
def env_fail : TickEnv := ⟨fun _ => .error ()⟩

/-- A message with a link-preview URL and a dotless text, so its extracted
URL set is the single PREVIEW candidate. -/
def msg_url_1 : RawMsg :=
  { id := 1, date := 10, raw_text := some (s2l "hello!"),
    sender := some { first_name := some (s2l "ann") },
    media := some (.web_page (some { url := some (s2l "https://aa.bb") })) }

/-- A link-free message with a higher id than `msg_url_1`. -/
def msg_plain_2 : RawMsg :=
  { id := 2, date := 11, raw_text := some (s2l "see you later"),
    sender := some { first_name := some (s2l "bob") } }

/-- The `findall` oracle for the text `see aa.bb`: `url_pattern.findall`
matches exactly the token `aa.bb` there (word boundary, two labels of two
letters joined by a dot, nothing else in the text can match). -/
def fa_c5 : List Char → List (List Char) :=
  fun t => if t = s2l "see aa.bb" then [s2l "aa.bb"] else []

/-- A message whose text contains `aa.bb` and that additionally carries a
bare-URL entity covering exactly that span (offset 4, length 5), so the
TEXT scan and the ENTITY scan produce the same normalized URL. -/
def msg_c5 : RawMsg :=
  { id := 3, date := 1, raw_text := some (s2l "see aa.bb"),
    entities := [.url_entity 4 5] }

/-- The `findall` oracle for the text `check www.aa.bb`:
`url_pattern.findall` matches exactly `www.aa.bb` there (the `www.` prefix
alternative followed by two labels; `check` is dotless and cannot match). -/
def fa_c9 : List Char → List (List Char) :=
  fun t => if t = s2l "check www.aa.bb" then [s2l "www.aa.bb"] else []

/-- A pivot message whose body contains the URL in `www.`-spelling; its
extraction normalizes the URL to the `https://` spelling. -/
def msg_c9 : RawMsg :=
  { id := 7, date := 5, raw_text := some (s2l "check www.aa.bb"),
    sender := some { first_name := some (s2l "tom") } }

/-- A trivial timestamp formatter for concrete evaluations. -/
def fmt_none : Nat → List Char := fun _ => []

/-- Neighbor fetch (before side, newest first) used by the context-window
witnesses: one qualifying older message, the pivot itself, and one message
whose text is too short. -/
def ctx_before_msgs : List RawMsg :=
  [{ id := 9, date := 1, raw_text := some (s2l "a longer message") },
   { id := 10, date := 2, raw_text := some (s2l "pivot body text") },
   { id := 8, date := 0, raw_text := some (s2l "short") }]

/-- Neighbor fetch (after side, ascending) used by the context-window
witnesses. -/
def ctx_after_msgs : List RawMsg :=
  [{ id := 10, date := 2, raw_text := some (s2l "pivot body text") },
   { id := 11, date := 3, raw_text := some (s2l "another long reply") },
   { id := 12, date := 4, raw_text := some (s2l "ok") }]

/-- A context entry whose stored text is 105 characters long, for the
truncation witness. -/
def long_entry : CtxEntry :=
  { id := 4, date := 9, sender_name := s2l "bo", text := List.replicate 105 'x' }

/-- An enriched record holding `long_entry` in its before-window. -/
def msg_c10 : MsgDict :=
  { id := 1, date := 0, sender_name := s2l "bo", text := s2l "hi",
    url_count := 0, urls := [], context_before := [long_entry],
    context_after := [] }

end TgLink

namespace TgLink

-- ========================================
-- String lemmas
-- ========================================

theorem dropWhile_head_false {p : Char → Bool} :
    ∀ {l : List Char} {c : Char} {t : List Char},
      List.dropWhile p l = c :: t → p c = false := by
  intro l
  induction l with
  | nil => intro c t h; simp [List.dropWhile] at h
  | cons a l ih =>
    intro c t h
    by_cases hp : p a = true
    · rw [List.dropWhile_cons, if_pos hp] at h
      exact ih h
    · rw [List.dropWhile_cons, if_neg hp] at h
      cases h
      simpa using hp

theorem dropWhile_eq_self {p : Char → Bool} {l : List Char}
    (h : ∀ c t, l = c :: t → p c = false) : List.dropWhile p l = l := by
  cases l with
  | nil => rfl
  | cons a t => rw [List.dropWhile_cons, if_neg (by simp [h a t rfl])]

theorem prefix_head {α : Type} {l₁ l₂ : List α} {c : α} {t : List α}
    (h : l₁ <+: l₂) (he : l₁ = c :: t) : ∃ t2, l₂ = c :: t2 := by
  obtain ⟨s, hs⟩ := h
  subst he
  exact ⟨t ++ s, by rw [← hs]; simp⟩

theorem drop_trail_front (p : Char → Bool) (l : List Char) :
    drop_trail p l <+: l := by
  obtain ⟨s, hs⟩ := List.dropWhile_suffix (l := l.reverse) p
  exact ⟨s.reverse, by
    have := congrArg List.reverse hs
    simpa [drop_trail] using this⟩

theorem drop_trail_eq_self {p : Char → Bool} {l : List Char}
    (h : ∀ c t, l.reverse = c :: t → p c = false) : drop_trail p l = l := by
  unfold drop_trail
  rw [dropWhile_eq_self h, List.reverse_reverse]

theorem drop_trail_reverse (p : Char → Bool) (l : List Char) :
    (drop_trail p l).reverse = List.dropWhile p l.reverse := by
  simp [drop_trail]

/-- The first character of a stripped string is not whitespace. -/
theorem py_strip_head {u : List Char} {c : Char} {t : List Char}
    (h : py_strip u = c :: t) : py_is_space c = false := by
  obtain ⟨t2, ht2⟩ := prefix_head (drop_trail_front _ _) h
  exact dropWhile_head_false ht2

/-- The last character of an rstripped string is not in the stripped set. -/
theorem py_rstrip_last {cs u : List Char} {c : Char} {t : List Char}
    (h : (py_rstrip cs u).reverse = c :: t) : cs.contains c = false := by
  rw [py_rstrip, drop_trail_reverse] at h
  exact dropWhile_head_false h

-- ========================================
-- Normalization (claim C4)
-- ========================================

/-- The normalized URL never starts with a whitespace character. -/
theorem normalize_url_head {u : List Char} {c : Char} {t : List Char}
    (h : normalize_url u = c :: t) : py_is_space c = false := by
  unfold normalize_url at h
  split at h
  · simp_all
  · split at h
    · rw [https_scheme] at h
      cases h
      decide
    · obtain ⟨t2, ht2⟩ := prefix_head (drop_trail_front _ _) h
      exact py_strip_head ht2

/-- The normalized URL never ends with a character of the rstrip set. -/
theorem normalize_url_last {u : List Char} {c : Char} {t : List Char}
    (h : (normalize_url u).reverse = c :: t) : trail_chars.contains c = false := by
  unfold normalize_url at h
  split at h
  · simp_all
  · split at h
    case isTrue hw =>
      have hpre : www_marker <+: py_rstrip trail_chars (py_strip u) :=
        List.isPrefixOf_iff_prefix.mp hw
      obtain ⟨t2, ht2⟩ := prefix_head hpre (by rw [www_marker])
      cases hrev : (py_rstrip trail_chars (py_strip u)).reverse with
      | nil =>
        rw [ht2] at hrev
        simp at hrev
      | cons d r =>
        rw [List.reverse_append, hrev] at h
        cases h
        exact py_rstrip_last hrev
    case isFalse hw => exact py_rstrip_last h

/-- The normalized URL never starts with `www.` (that branch has already
prepended `https://`). -/
theorem normalize_url_not_www (u : List Char) :
    www_marker.isPrefixOf (normalize_url u) = false := by
  unfold normalize_url
  split
  · rename_i h
    rw [h]
    decide
  · split
    · rw [https_scheme, www_marker]
      rw [List.cons_append]
      simp [List.isPrefixOf]
    · rename_i h
      exact Bool.eq_false_iff.mpr (by simpa [List.isPrefixOf_iff_prefix] using h)

end TgLink

namespace TgLink

/-- C4, counterexample (claim as stated is false): for the input `"a ."`,
one normalization yields `"a "` (the rstrip of the trailing dot exposes a
space that the earlier strip can no longer remove), and normalizing again
yields `"a"`; so `_normalize_url` is not idempotent on all strings. -/
theorem c4_counterexample :
    normalize_url (normalize_url (s2l "a .")) ≠ normalize_url (s2l "a .") ∧
      normalize_url (s2l "a .") = s2l "a " ∧
      normalize_url (normalize_url (s2l "a .")) = s2l "a" := by
  refine ⟨?_, by decide, by decide⟩
  decide

/-- C4, amended: `_normalize_url` is idempotent on every string whose
normalized form does not end in a whitespace character (the only inputs on
which it fails are those where stripping trailing punctuation exposes
trailing whitespace). -/
theorem c4_normalize_idempotent (u : List Char)
    (h : ends_with_space (normalize_url u) = false) :
    normalize_url (normalize_url u) = normalize_url u := by
  cases hv : normalize_url u with
  | nil => simp [normalize_url]
  | cons c t =>
    rw [hv] at h
    have hhead : py_is_space c = false := normalize_url_head hv
    have hstrip1 : List.dropWhile py_is_space (c :: t) = c :: t :=
      dropWhile_eq_self (by intro c2 t2 he; cases he; exact hhead)
    have hlastspace : ∀ c2 t2, (c :: t).reverse = c2 :: t2 → py_is_space c2 = false := by
      intro c2 t2 he
      unfold ends_with_space at h
      rw [he] at h
      exact h
    have hstrip : py_strip (c :: t) = c :: t := by
      rw [py_strip, hstrip1]
      exact drop_trail_eq_self hlastspace
    have hlasttrail : ∀ c2 t2, (c :: t).reverse = c2 :: t2 →
        trail_chars.contains c2 = false := by
      intro c2 t2 he
      exact normalize_url_last (by rw [hv]; exact he)
    have hrstrip : py_rstrip trail_chars (c :: t) = c :: t :=
      drop_trail_eq_self hlasttrail
    have hwww : www_marker.isPrefixOf (c :: t) = false := by
      rw [← hv]
      exact normalize_url_not_www u
    unfold normalize_url
    simp only [hstrip, hrstrip, hwww]
    simp

/-- C4 witness: a concrete URL on which the hypothesis of the amended
idempotence theorem holds. -/
theorem c4_witness :
    ends_with_space (normalize_url (s2l "www.aa.bb")) = false ∧
      normalize_url (normalize_url (s2l "www.aa.bb")) = normalize_url (s2l "www.aa.bb") :=
  ⟨by decide, c4_normalize_idempotent (s2l "www.aa.bb") (by decide)⟩

end TgLink

namespace TgLink

-- ========================================
-- Deduplication lemmas (claims C3 and C5)
-- ========================================

theorem dedup_urls_sublist : ∀ (l : List URLInfo) (seen : List (List Char)),
    (dedup_urls l seen).Sublist l := by
  intro l
  induction l with
  | nil => intro seen; simp [dedup_urls]
  | cons u rest ih =>
    intro seen
    rw [dedup_urls]
    split
    · exact (ih seen).cons u
    · exact (ih (u.url :: seen)).cons₂ u

theorem dedup_urls_not_seen : ∀ (l : List URLInfo) (seen : List (List Char)),
    ∀ v ∈ dedup_urls l seen, v.url ∉ seen := by
  intro l
  induction l with
  | nil => intro seen v hv; simp [dedup_urls] at hv
  | cons u rest ih =>
    intro seen v hv
    rw [dedup_urls] at hv
    split at hv
    · exact ih seen v hv
    · rcases List.mem_cons.mp hv with h1 | h1
      · subst h1; assumption
      · intro hmem
        exact ih (u.url :: seen) v h1 (List.mem_cons_of_mem _ hmem)

theorem dedup_urls_pairwise : ∀ (l : List URLInfo) (seen : List (List Char)),
    (dedup_urls l seen).Pairwise (fun a b => a.url ≠ b.url) := by
  intro l
  induction l with
  | nil => intro seen; simp [dedup_urls]
  | cons u rest ih =>
    intro seen
    rw [dedup_urls]
    split
    · exact ih seen
    · refine List.Pairwise.cons ?_ (ih (u.url :: seen))
      intro b hb
      have := dedup_urls_not_seen rest (u.url :: seen) b hb
      intro he
      exact this (by rw [← he]; exact List.mem_cons_self _ _)

theorem dedup_urls_find : ∀ (l : List URLInfo) (seen : List (List Char)),
    ∀ v ∈ dedup_urls l seen,
      List.find? (fun w => w.url == v.url) l = some v := by
  intro l
  induction l with
  | nil => intro seen v hv; simp [dedup_urls] at hv
  | cons u rest ih =>
    intro seen v hv
    rw [dedup_urls] at hv
    split at hv
    case isTrue hseen =>
      have hne : (u.url == v.url) = false := by
        have hv2 := dedup_urls_not_seen rest seen v hv
        rw [beq_eq_false_iff_ne]
        intro he
        exact hv2 (he ▸ hseen)
      rw [List.find?_cons_of_neg _ (by simp [hne])]
      exact ih seen v hv
    case isFalse hseen =>
      rcases List.mem_cons.mp hv with h1 | h1
      · subst h1
        exact List.find?_cons_of_pos _ (by simp)
      · have hv2 := dedup_urls_not_seen rest (u.url :: seen) v h1
        have hne : (u.url == v.url) = false := by
          rw [beq_eq_false_iff_ne]
          intro he
          exact hv2 (by rw [← he]; exact List.mem_cons_self _ _)
        rw [List.find?_cons_of_neg _ (by simp [hne])]
        exact ih (u.url :: seen) v h1

theorem dedup_urls_cover : ∀ (l : List URLInfo) (seen : List (List Char)),
    ∀ u ∈ l, u.url ∉ seen → ∃ v ∈ dedup_urls l seen, v.url = u.url := by
  intro l
  induction l with
  | nil => intro seen u hu; simp at hu
  | cons a rest ih =>
    intro seen u hu hseen
    rw [dedup_urls]
    rcases List.mem_cons.mp hu with h1 | h1
    · subst h1
      rw [if_neg hseen]
      exact ⟨u, List.mem_cons_self _ _, rfl⟩
    · by_cases ha : a.url ∈ seen
      · rw [if_pos ha]
        exact ih seen u h1 hseen
      · rw [if_neg ha]
        by_cases he : u.url = a.url
        · exact ⟨a, List.mem_cons_self _ _, he.symm⟩
        · obtain ⟨v, hv1, hv2⟩ := ih (a.url :: seen) u h1 (by
            intro hmem
            rcases List.mem_cons.mp hmem with h2 | h2
            · exact he h2
            · exact hseen h2)
          exact ⟨v, List.mem_cons_of_mem _ hv1, hv2⟩

/-- C3: the deduplication pass of extract-all-urls keeps, for each URL
value, exactly the first candidate carrying it: the output is an
order-preserving sublist of the input, no two output candidates share a
URL, every output candidate is the first input candidate with its URL, and
every input URL value is still represented in the output. -/
theorem c3_dedup_first_occurrence (l : List URLInfo) :
    (dedup_urls l []).Sublist l ∧
      (dedup_urls l []).Pairwise (fun a b => a.url ≠ b.url) ∧
      (∀ v ∈ dedup_urls l [], List.find? (fun w => w.url == v.url) l = some v) ∧
      (∀ u ∈ l, ∃ v ∈ dedup_urls l [], v.url = u.url) :=
  ⟨dedup_urls_sublist l [], dedup_urls_pairwise l [],
    dedup_urls_find l [],
    fun u hu => dedup_urls_cover l [] u hu (by simp)⟩

/-- C3 witness: the dedup pass on a concrete candidate list with a
duplicated URL, instantiating each clause of the theorem. -/
theorem c3_witness :
    (dedup_urls
        ([⟨SrcType.TEXT, s2l "u1", none, none⟩, ⟨SrcType.ENTITY, s2l "u2", none, none⟩,
          ⟨SrcType.BUTTON, s2l "u1", none, none⟩] : List URLInfo) []).Sublist
      ([⟨SrcType.TEXT, s2l "u1", none, none⟩, ⟨SrcType.ENTITY, s2l "u2", none, none⟩,
        ⟨SrcType.BUTTON, s2l "u1", none, none⟩] : List URLInfo) ∧
    List.find? (fun w => w.url == s2l "u1")
        ([⟨SrcType.TEXT, s2l "u1", none, none⟩, ⟨SrcType.ENTITY, s2l "u2", none, none⟩,
          ⟨SrcType.BUTTON, s2l "u1", none, none⟩] : List URLInfo) =
      some ⟨SrcType.TEXT, s2l "u1", none, none⟩ :=
  ⟨(c3_dedup_first_occurrence _).1,
    (c3_dedup_first_occurrence
        ([⟨SrcType.TEXT, s2l "u1", none, none⟩, ⟨SrcType.ENTITY, s2l "u2", none, none⟩,
          ⟨SrcType.BUTTON, s2l "u1", none, none⟩] : List URLInfo)).2.2.1
      ⟨SrcType.TEXT, s2l "u1", none, none⟩ (by decide)⟩

end TgLink

namespace TgLink

theorem find_append_left {α : Type} {p : α → Bool} {l1 l2 : List α} {a : α}
    (h : l1.find? p = some a) : (l1 ++ l2).find? p = some a := by
  induction l1 with
  | nil => simp [List.find?] at h
  | cons x xs ih =>
    by_cases hp : p x = true
    · rw [List.find?_cons_of_pos _ hp] at h
      rw [List.cons_append, List.find?_cons_of_pos _ hp]
      exact h
    · rw [List.find?_cons_of_neg _ hp] at h
      rw [List.cons_append, List.find?_cons_of_neg _ hp]
      exact ih h

theorem extract_text_urls_source (findall : List Char → List (List Char))
    (s : List Char) : ∀ x ∈ extract_text_urls findall s,
      x.source_type = SrcType.TEXT := by
  intro x hx
  rw [extract_text_urls] at hx
  obtain ⟨mt, _, hmt⟩ := List.mem_map.mp hx
  rw [← hmt]

/-- C5: when the TEXT scan and the ENTITY scan of a message both produce a
candidate with the same normalized URL, the candidate that survives
deduplication in `extract_all_urls` carries it with source type TEXT,
because the scans are concatenated in the order TEXT, ENTITY, BUTTON,
PREVIEW and the first occurrence wins. -/
theorem c5_text_priority (findall : List Char → List (List Char))
    (m : RawMsg) (U : List Char)
    (hT : ∃ t ∈ extract_text_urls findall (get_text m), t.url = U)
    (_hE : ∃ e ∈ extract_entity_urls m, e.url = U) :
    ∃ v ∈ extract_all_urls findall m, v.url = U ∧ v.source_type = SrcType.TEXT := by
  obtain ⟨t0, ht0m, ht0u⟩ := hT
  have hsome : (List.find? (fun w => w.url == U)
      (extract_text_urls findall (get_text m))).isSome := by
    rw [List.find?_isSome]
    exact ⟨t0, ht0m, by simp [ht0u]⟩
  obtain ⟨t1, ht1⟩ := Option.isSome_iff_exists.mp hsome
  have ht1mem : t1 ∈ extract_text_urls findall (get_text m) :=
    List.mem_of_find?_eq_some ht1
  have ht0big : t0 ∈ extract_text_urls findall (get_text m) ++ extract_entity_urls m ++
      extract_button_urls m ++ extract_preview_urls m :=
    List.mem_append_left _ (List.mem_append_left _ (List.mem_append_left _ ht0m))
  obtain ⟨v, hv, hvu⟩ :=
    dedup_urls_cover
      (extract_text_urls findall (get_text m) ++ extract_entity_urls m ++
        extract_button_urls m ++ extract_preview_urls m) [] t0 ht0big (by simp)
  have hvU : v.url = U := by rw [hvu, ht0u]
  have hfind := dedup_urls_find
      (extract_text_urls findall (get_text m) ++ extract_entity_urls m ++
        extract_button_urls m ++ extract_preview_urls m) [] v hv
  rw [hvU] at hfind
  have hfind2 : List.find? (fun w => w.url == U)
      (extract_text_urls findall (get_text m) ++ extract_entity_urls m ++
        extract_button_urls m ++ extract_preview_urls m) = some t1 :=
    find_append_left (find_append_left (find_append_left ht1))
  have hvt1 : v = t1 := Option.some_inj.mp (hfind.symm.trans hfind2)
  exact ⟨v, hv, hvU, by
    rw [hvt1]
    exact extract_text_urls_source findall (get_text m) t1 ht1mem⟩

/-- C5 witness: `msg_c5` has the URL `aa.bb` both as a regex match of its
text and as a bare-URL entity span; the retained candidate is TEXT-sourced. -/
theorem c5_witness :
    (∃ t ∈ extract_text_urls fa_c5 (get_text msg_c5), t.url = s2l "aa.bb") ∧
      (∃ e ∈ extract_entity_urls msg_c5, e.url = s2l "aa.bb") ∧
      (∃ v ∈ extract_all_urls fa_c5 msg_c5,
        v.url = s2l "aa.bb" ∧ v.source_type = SrcType.TEXT) := by
  refine ⟨?_, ?_, ?_⟩
  · decide
  · decide
  · exact c5_text_priority fa_c5 msg_c5 (s2l "aa.bb") (by decide) (by decide)

end TgLink

namespace TgLink

-- ========================================
-- Context window lemmas (claims C6 and C7)
-- ========================================

theorem ctx_collect_length {pid bound : Nat} :
    ∀ (ms : List RawMsg) (acc : List CtxEntry), acc.length ≤ bound →
      (ctx_collect pid bound ms acc).length ≤ bound := by
  intro ms
  induction ms with
  | nil => intro acc h; simpa [ctx_collect] using h
  | cons m ms ih =>
    intro acc h
    simp only [ctx_collect]
    split
    case isTrue hc =>
      split
      · exact ih _ (by simpa using hc.2)
      · exact ih _ h
    case isFalse hc => exact ih _ h

theorem ctx_collect_mem {pid bound : Nat} :
    ∀ (ms : List RawMsg) (acc : List CtxEntry), ∀ e ∈ ctx_collect pid bound ms acc,
      e ∈ acc ∨ ∃ m ∈ ms,
        e = ⟨m.id, m.date, resolve_sender_name m.sender, get_text m⟩ ∧
          m.id ≠ pid ∧ get_text m ≠ [] ∧ 6 < (get_text m).length := by
  intro ms
  induction ms with
  | nil => intro acc e he; exact Or.inl (by simpa [ctx_collect] using he)
  | cons m ms ih =>
    intro acc e he
    simp only [ctx_collect] at he
    split at he
    case isTrue hc =>
      split at he
      case isTrue ht =>
        rcases ih _ e he with h1 | h1
        · rcases List.mem_append.mp h1 with h2 | h2
          · exact Or.inl h2
          · refine Or.inr ⟨m, List.mem_cons_self _ _, ?_, hc.1, ht.1, ht.2⟩
            simpa using h2
        · obtain ⟨m2, hm2, hrest⟩ := h1
          exact Or.inr ⟨m2, List.mem_cons_of_mem _ hm2, hrest⟩
      case isFalse ht =>
        rcases ih _ e he with h1 | h1
        · exact Or.inl h1
        · obtain ⟨m2, hm2, hrest⟩ := h1
          exact Or.inr ⟨m2, List.mem_cons_of_mem _ hm2, hrest⟩
    case isFalse hc =>
      rcases ih _ e he with h1 | h1
      · exact Or.inl h1
      · obtain ⟨m2, hm2, hrest⟩ := h1
        exact Or.inr ⟨m2, List.mem_cons_of_mem _ hm2, hrest⟩

/-- C6: a context window never contains an entry whose id equals the pivot
id, and its two sides never exceed the requested before/after counts. -/
theorem c6_context_window_bounds (bmsgs amsgs : List RawMsg) (pid b a : Nat) :
    (∀ e ∈ (get_context_messages bmsgs amsgs pid b a).before, e.id ≠ pid) ∧
      (∀ e ∈ (get_context_messages bmsgs amsgs pid b a).after, e.id ≠ pid) ∧
      (get_context_messages bmsgs amsgs pid b a).before.length ≤ b ∧
      (get_context_messages bmsgs amsgs pid b a).after.length ≤ a := by
  refine ⟨?_, ?_, ?_, ?_⟩
  · intro e he
    rw [get_context_messages] at he
    rcases ctx_collect_mem bmsgs [] e (List.mem_reverse.mp he) with h1 | h1
    · simp at h1
    · obtain ⟨m, _, hev, hne, _⟩ := h1
      rw [hev]
      exact hne
  · intro e he
    rw [get_context_messages] at he
    rcases ctx_collect_mem amsgs [] e he with h1 | h1
    · simp at h1
    · obtain ⟨m, _, hev, hne, _⟩ := h1
      rw [hev]
      exact hne
  · rw [get_context_messages]
    simpa using ctx_collect_length bmsgs [] (by simp)
  · rw [get_context_messages]
    exact ctx_collect_length amsgs [] (by simp)

/-- C6 witness: a concrete context fetch around pivot id 10 obeys the
bounds and excludes the pivot. -/
theorem c6_witness :
    (get_context_messages ctx_before_msgs ctx_after_msgs 10 2 5).before.length ≤ 2 ∧
      (get_context_messages ctx_before_msgs ctx_after_msgs 10 2 5).after.length ≤ 5 ∧
      (⟨9, 1, s2l "不明", s2l "a longer message"⟩ : CtxEntry).id ≠ 10 :=
  ⟨(c6_context_window_bounds ctx_before_msgs ctx_after_msgs 10 2 5).2.2.1,
    (c6_context_window_bounds ctx_before_msgs ctx_after_msgs 10 2 5).2.2.2,
    (c6_context_window_bounds ctx_before_msgs ctx_after_msgs 10 2 5).1 _ (by decide)⟩

/-- C7: every entry of a context window stores, in full, the text of some
fetched neighbor, and that text is strictly longer than 6 characters;
neighbors with text of at most 6 characters therefore never appear. -/
theorem c7_context_min_length (bmsgs amsgs : List RawMsg) (pid b a : Nat) :
    (∀ e ∈ (get_context_messages bmsgs amsgs pid b a).before,
        ∃ m ∈ bmsgs, e.text = get_text m ∧ 6 < e.text.length) ∧
      (∀ e ∈ (get_context_messages bmsgs amsgs pid b a).after,
        ∃ m ∈ amsgs, e.text = get_text m ∧ 6 < e.text.length) := by
  constructor
  · intro e he
    rw [get_context_messages] at he
    rcases ctx_collect_mem bmsgs [] e (List.mem_reverse.mp he) with h1 | h1
    · simp at h1
    · obtain ⟨m, hm, hev, _, _, hlen⟩ := h1
      exact ⟨m, hm, by rw [hev], by rw [hev]; exact hlen⟩
  · intro e he
    rw [get_context_messages] at he
    rcases ctx_collect_mem amsgs [] e he with h1 | h1
    · simp at h1
    · obtain ⟨m, hm, hev, _, _, hlen⟩ := h1
      exact ⟨m, hm, by rw [hev], by rw [hev]; exact hlen⟩

/-- C7 witness: the single surviving before-entry of the concrete fetch
carries the full text of neighbor id 9, which is longer than 6 characters. -/
theorem c7_witness :
    ∃ m ∈ ctx_before_msgs,
      (⟨9, 1, s2l "不明", s2l "a longer message"⟩ : CtxEntry).text = get_text m ∧
        6 < (⟨9, 1, s2l "不明", s2l "a longer message"⟩ : CtxEntry).text.length :=
  (c7_context_min_length ctx_before_msgs ctx_after_msgs 10 2 5).1 _ (by decide)

end TgLink

namespace TgLink

-- ========================================
-- Maximum and pipeline lemmas (claims C1, C2, C8)
-- ========================================

theorem foldl_max_init (l : List Nat) : ∀ x : Nat, x ≤ l.foldl Nat.max x := by
  induction l with
  | nil => intro x; simp
  | cons b l ih =>
    intro x
    rw [List.foldl_cons]
    exact le_trans (Nat.le_max_left x b) (ih _)

theorem foldl_max_mem (l : List Nat) : ∀ x y : Nat, y ∈ l → y ≤ l.foldl Nat.max x := by
  induction l with
  | nil => intro x y hy; simp at hy
  | cons b l ih =>
    intro x y hy
    rw [List.foldl_cons]
    rcases List.mem_cons.mp hy with h1 | h1
    · subst h1
      exact le_trans (Nat.le_max_right x y) (foldl_max_init l _)
    · exact ih _ y h1

theorem foldl_max_choice (l : List Nat) :
    ∀ x : Nat, l.foldl Nat.max x = x ∨ l.foldl Nat.max x ∈ l := by
  induction l with
  | nil => intro x; exact Or.inl rfl
  | cons b l ih =>
    intro x
    rw [List.foldl_cons]
    rcases ih (Nat.max x b) with h1 | h1
    · rcases max_choice x b with h2 | h2
      · exact Or.inl (h1.trans h2)
      · exact Or.inr (List.mem_cons.mpr (Or.inl (h1.trans h2)))
    · exact Or.inr (List.mem_cons_of_mem _ h1)

theorem py_max_le {l : List Nat} {y : Nat} (hy : y ∈ l) : y ≤ py_max l := by
  cases l with
  | nil => simp at hy
  | cons x xs =>
    rw [py_max]
    rcases List.mem_cons.mp hy with h1 | h1
    · subst h1; exact foldl_max_init xs y
    · exact foldl_max_mem xs x y h1

theorem py_max_mem {l : List Nat} (h : l ≠ []) : py_max l ∈ l := by
  cases l with
  | nil => exact absurd rfl h
  | cons x xs =>
    rw [py_max]
    rcases foldl_max_choice xs x with h1 | h1
    · exact List.mem_cons.mpr (Or.inl h1)
    · exact List.mem_cons_of_mem _ h1

theorem process_messages_ids (findall : List Char → List (List Char)) (env : TickEnv) :
    ∀ (msgs : List RawMsg) (r : List MsgDict),
      process_messages findall env msgs = .ok r →
      ∀ d ∈ r, ∃ m ∈ msgs, d.id = m.id := by
  intro msgs
  induction msgs with
  | nil =>
    intro r h d hd
    rw [process_messages] at h
    cases h
    simp at hd
  | cons m ms ih =>
    intro r h d hd
    rw [process_messages] at h
    split at h
    · obtain ⟨m2, hm2, hid⟩ := ih r h d hd
      exact ⟨m2, List.mem_cons_of_mem _ hm2, hid⟩
    · split at h
      · cases h
      · split at h
        · cases h
        · cases h
          rcases List.mem_cons.mp hd with h1 | h1
          · subst h1
            exact ⟨m, List.mem_cons_self _ _, rfl⟩
          · rename_i hrest
            obtain ⟨m2, hm2, hid⟩ := ih _ hrest d h1
            exact ⟨m2, List.mem_cons_of_mem _ hm2, hid⟩

theorem get_tg_results_ids (findall : List Char → List (List Char)) (env : TickEnv)
    (fetched : List RawMsg) :
    ∀ d ∈ get_tg_results findall env fetched, ∃ m ∈ fetched, d.id = m.id := by
  intro d hd
  rw [get_tg_results] at hd
  split at hd
  case h_1 r hr =>
    have hperm := List.perm_insertionSort (fun a b : MsgDict => a.date ≤ b.date) r
    exact process_messages_ids findall env fetched r hr d (hperm.mem_iff.mp hd)
  case h_2 => simp at hd

end TgLink

namespace TgLink

-- ========================================
-- Claim C1: cursor advance after a tick
-- ========================================

/-- C1, counterexample (claim as stated is false): in a tick that fetches
the link-free message id 2 and the link-bearing message id 1, the cursor is
set to 1, the maximum id of the URL-bearing batch, and not to 2, the
maximum id among all fetched messages; the link-free id 2 message remains
above the cursor. -/
theorem c1_counterexample :
    tick fa_none env_ok [msg_plain_2, msg_url_1] none = some 1 ∧
      py_max ([msg_plain_2, msg_url_1].map (fun m => m.id)) = 2 ∧
      extract_all_urls fa_none msg_plain_2 = [] := by
  refine ⟨?_, by decide, by decide⟩
  decide

/-- C1, amended: when a tick's batch of enriched (URL-bearing) messages is
non-empty, the cursor is set to the maximum id of that batch — an id both
attained by and bounding every delivered message — rather than the maximum
over all fetched messages. -/
theorem c1_cursor_batch_max (findall : List Char → List (List Char)) (env : TickEnv)
    (fetched : List RawMsg) (cursor : Option Nat)
    (h : get_tg_results findall env fetched ≠ []) :
    tick findall env fetched cursor =
        some (py_max_ids (get_tg_results findall env fetched)) ∧
      (∀ d ∈ get_tg_results findall env fetched,
        d.id ≤ py_max_ids (get_tg_results findall env fetched)) ∧
      (∃ d ∈ get_tg_results findall env fetched,
        d.id = py_max_ids (get_tg_results findall env fetched)) := by
  refine ⟨?_, ?_, ?_⟩
  · rw [tick, if_neg h]
  · intro d hd
    exact py_max_le (List.mem_map.mpr ⟨d, hd, rfl⟩)
  · have hmem : py_max_ids (get_tg_results findall env fetched) ∈
        (get_tg_results findall env fetched).map (fun d => d.id) :=
      py_max_mem (by simpa using h)
    obtain ⟨d, hd, hid⟩ := List.mem_map.mp hmem
    exact ⟨d, hd, hid⟩

/-- C1 witness: a concrete tick with one URL-bearing message, discharging
the non-empty-batch hypothesis of the amended cursor theorem. -/
theorem c1_witness :
    get_tg_results fa_none env_ok [msg_url_1] ≠ [] ∧
      tick fa_none env_ok [msg_url_1] none =
        some (py_max_ids (get_tg_results fa_none env_ok [msg_url_1])) :=
  ⟨by decide, (c1_cursor_batch_max fa_none env_ok [msg_url_1] none (by decide)).1⟩

-- ========================================
-- Claim C2: context fetch failure
-- ========================================

theorem process_messages_ctx_error (findall : List Char → List (List Char))
    (env : TickEnv) :
    ∀ (msgs : List RawMsg) (m : RawMsg), m ∈ msgs →
      extract_all_urls findall m ≠ [] → env.ctxFetch m.id = .error () →
      process_messages findall env msgs = .error () := by
  intro msgs
  induction msgs with
  | nil => intro m hm; simp at hm
  | cons a ms ih =>
    intro m hm hu hc
    rw [process_messages]
    split
    case isTrue ha =>
      rcases List.mem_cons.mp hm with h1 | h1
      · subst h1; exact absurd ha hu
      · exact ih m h1 hu hc
    case isFalse ha =>
      rcases List.mem_cons.mp hm with h1 | h1
      · subst h1
        rw [hc]
      · cases hfa : env.ctxFetch a.id with
        | error e => cases e; rfl
        | ok pair =>
          obtain ⟨bs, as2⟩ := pair
          rw [ih m h1 hu hc]

/-- C2, amended: an exception during the context fetch of any URL-bearing
pivot message is caught only by the function-level handler of
`get_tg_results`, which returns the empty list — the pivot message (and
every other message of that tick) is dropped, not forwarded with an empty
context window. -/
theorem c2_ctx_failure_drops_batch (findall : List Char → List (List Char))
    (env : TickEnv) (fetched : List RawMsg) (m : RawMsg)
    (hm : m ∈ fetched) (hu : extract_all_urls findall m ≠ [])
    (hc : env.ctxFetch m.id = .error ()) :
    get_tg_results findall env fetched = [] := by
  rw [get_tg_results, process_messages_ctx_error findall env fetched m hm hu hc]

/-- C2, counterexample (claim as stated is false): the pivot `msg_url_1`
has an extracted URL and its context fetch raises, yet the delivered batch
is empty — the pivot is not included with an empty context window. -/
theorem c2_counterexample :
    get_tg_results fa_none env_fail [msg_url_1] = [] ∧
      extract_all_urls fa_none msg_url_1 ≠ [] ∧
      env_fail.ctxFetch msg_url_1.id = .error () := by
  refine ⟨by decide, by decide, rfl⟩

/-- C2 witness: the amended theorem applied to the concrete failing tick. -/
theorem c2_witness : get_tg_results fa_none env_fail [msg_url_1] = [] :=
  c2_ctx_failure_drops_batch fa_none env_fail [msg_url_1] msg_url_1
    (by decide) (by decide) rfl

end TgLink

namespace TgLink

-- ========================================
-- Claim C8: cursor monotonicity
-- ========================================

theorem cursor_le_refl : ∀ c : Option Nat, cursor_le c c := by
  intro c
  cases c <;> simp [cursor_le]

theorem cursor_le_trans : ∀ {c1 c2 c3 : Option Nat},
    cursor_le c1 c2 → cursor_le c2 c3 → cursor_le c1 c3 := by
  intro c1 c2 c3 h1 h2
  cases c1 with
  | none => trivial
  | some a =>
    cases c2 with
    | none => exact absurd h1 (by simp [cursor_le])
    | some b =>
      cases c3 with
      | none => exact absurd h2 (by simp [cursor_le])
      | some c =>
        exact le_trans (by simpa [cursor_le] using h1) (by simpa [cursor_le] using h2)

theorem tick_mono (findall : List Char → List (List Char)) (env : TickEnv)
    (fetched : List RawMsg) (c : Option Nat)
    (h : ∀ v, c = some v → ∀ m ∈ fetched, v < m.id) :
    cursor_le c (tick findall env fetched c) := by
  rw [tick]
  split
  · exact cursor_le_refl c
  case isFalse hne =>
    cases c with
    | none => trivial
    | some v =>
      have hmem : py_max_ids (get_tg_results findall env fetched) ∈
          (get_tg_results findall env fetched).map (fun d => d.id) :=
        py_max_mem (by simpa using hne)
      obtain ⟨d, hd, hid⟩ := List.mem_map.mp hmem
      obtain ⟨m, hmf, hdm⟩ := get_tg_results_ids findall env fetched d hd
      have : v < py_max_ids (get_tg_results findall env fetched) := by
        rw [← hid, hdm]
        exact h v rfl m hmf
      simpa [cursor_le] using le_of_lt this

theorem run_ticks_append (findall : List Char → List (List Char)) :
    ∀ (pre post : List TickStep) (c : Option Nat),
      run_ticks findall c (pre ++ post) = run_ticks findall (run_ticks findall c pre) post := by
  intro pre
  induction pre with
  | nil => intro post c; rfl
  | cons s ss ih => intro post c; rw [List.cons_append, run_ticks, run_ticks, ih]

theorem valid_run_drop (findall : List Char → List (List Char)) :
    ∀ (pre post : List TickStep) (c : Option Nat),
      valid_run findall c (pre ++ post) →
      valid_run findall (run_ticks findall c pre) post := by
  intro pre
  induction pre with
  | nil => intro post c h; exact h
  | cons s ss ih =>
    intro post c h
    rw [List.cons_append, valid_run] at h
    exact ih post _ h.2

theorem run_ticks_mono (findall : List Char → List (List Char)) :
    ∀ (steps : List TickStep) (c : Option Nat), valid_run findall c steps →
      cursor_le c (run_ticks findall c steps) := by
  intro steps
  induction steps with
  | nil => intro c _; exact cursor_le_refl c
  | cons s ss ih =>
    intro c h
    rw [valid_run] at h
    rw [run_ticks]
    exact cursor_le_trans (tick_mono findall s.env s.fetched c h.1) (ih _ h.2)

/-- C8: over any sequence of poll cycles in which each bounded fetch
returns only messages with ids above the current cursor, the cursor value
after any earlier portion of the run is less than or equal to the value
after the whole run (and a set cursor never becomes unset). -/
theorem c8_cursor_monotone (findall : List Char → List (List Char))
    (c : Option Nat) (pre post : List TickStep)
    (h : valid_run findall c (pre ++ post)) :
    cursor_le (run_ticks findall c pre) (run_ticks findall c (pre ++ post)) := by
  rw [run_ticks_append]
  exact run_ticks_mono findall post _ (valid_run_drop findall pre post c h)

/-- C8 witness: a two-tick run from the unset cursor, where the second
fetch respects the cursor set by the first; the cursor after the first tick
is below the cursor after both. -/
theorem c8_witness :
    cursor_le (run_ticks fa_none none [⟨env_ok, [msg_url_1]⟩])
      (run_ticks fa_none none ([⟨env_ok, [msg_url_1]⟩] ++ [⟨env_ok, [msg_c5, msg_plain_2]⟩])) := by
  refine c8_cursor_monotone fa_none none _ _ ⟨?_, ?_, trivial⟩
  · intro v hv
    simp at hv
  · intro v hv m hm
    have h1 : tick fa_none env_ok [msg_url_1] none = some 1 := by decide
    rw [h1] at hv
    cases hv
    rcases List.mem_cons.mp hm with h2 | h2
    · rw [h2]
      decide
    · rcases List.mem_cons.mp h2 with h3 | h3
      · rw [h3]
        decide
      · simp at h3

end TgLink

namespace TgLink

-- ========================================
-- Claim C9: URL stripping in the delivered body
-- ========================================

/-- C9: evaluation of the pipeline at the failing input.  The pivot text
`check www.aa.bb` yields the single extracted URL `https://www.aa.bb`
(normalization prepends the scheme), the body-stripping loop deletes only
that normalized spelling and so leaves the body unchanged, and the main
message handed to the sink still contains the embedded URL `www.aa.bb`. -/
theorem c9_failing_eval :
    (get_tg_results fa_c9 env_ok [msg_c9]).map
        (fun d => (d.text, d.urls.map (fun u => u.url), text_without_urls d.text d.urls)) =
      [(s2l "check www.aa.bb", [s2l "https://www.aa.bb"], s2l "check www.aa.bb")] ∧
      (get_tg_results fa_c9 env_ok [msg_c9]).map
          (fun d => has_sub ((send_one fmt_none fmt_none d).getD 1 []) (s2l "www.aa.bb")) =
        [true] ∧
      normalize_url (s2l "www.aa.bb") = s2l "https://www.aa.bb" := by
  refine ⟨by decide, by decide, by decide⟩

-- ========================================
-- Claim C10: context text truncation
-- ========================================

theorem foldl_append_chars (f : CtxEntry → List Char) :
    ∀ (entries : List CtxEntry) (init : List Char),
      entries.foldl (fun acc e => acc ++ f e) init = init ++ (entries.map f).flatten := by
  intro entries
  induction entries with
  | nil => intro init; simp
  | cons e es ih =>
    intro init
    rw [List.foldl_cons, ih]
    simp

theorem flatten_mem_factor (f : CtxEntry → List Char) :
    ∀ (l : List CtxEntry) (e : CtxEntry), e ∈ l →
      ∃ p q, (l.map f).flatten = p ++ (f e ++ q) := by
  intro l
  induction l with
  | nil => intro e he; simp at he
  | cons a l ih =>
    intro e he
    rcases List.mem_cons.mp he with h1 | h1
    · subst h1
      exact ⟨[], (l.map f).flatten, by simp⟩
    · obtain ⟨p, q, hpq⟩ := ih e h1
      exact ⟨f a ++ p, q, by simp [hpq]⟩

theorem render_ctx_block_factor (hdr : List Char) (fmtHM : Nat → List Char)
    (entries : List CtxEntry) (e : CtxEntry) (he : e ∈ entries) :
    ∃ pre post, render_ctx_block hdr fmtHM entries =
      pre ++ (e.text.take 100 ++ post) := by
  obtain ⟨p, q, hpq⟩ := flatten_mem_factor (render_ctx_line fmtHM) entries e he
  refine ⟨(s2l "```\n" ++ hdr) ++ p ++
      (s2l "[" ++ fmtHM e.date ++ s2l "] " ++ e.sender_name ++ s2l ": "),
    s2l "\n" ++ q ++ s2l "```", ?_⟩
  rw [render_ctx_block, foldl_append_chars, hpq, render_ctx_line]
  simp

/-- C10: in the rendered before and after context blocks sent to the sink,
each context entry's text appears truncated to its first 100 characters
(at most 100, a prefix of the stored full text, exactly 100 when the
stored text is longer), and those blocks are among the strings sent for
the message. -/
theorem c10_context_truncation (fmtMD fmtHM : Nat → List Char)
    (msg : MsgDict) (e : CtxEntry) :
    (e ∈ msg.context_before →
      (∃ pre post, render_ctx_block (s2l "📜 前の会話:\n") fmtHM msg.context_before =
          pre ++ (e.text.take 100 ++ post)) ∧
        render_ctx_block (s2l "📜 前の会話:\n") fmtHM msg.context_before ∈
          send_one fmtMD fmtHM msg) ∧
      (e ∈ msg.context_after →
        (∃ pre post, render_ctx_block (s2l "📝 後の会話:\n") fmtHM msg.context_after =
            pre ++ (e.text.take 100 ++ post)) ∧
          render_ctx_block (s2l "📝 後の会話:\n") fmtHM msg.context_after ∈
            send_one fmtMD fmtHM msg) ∧
      (e.text.take 100).length ≤ 100 ∧
      e.text.take 100 <+: e.text ∧
      (100 < e.text.length → (e.text.take 100).length = 100) := by
  refine ⟨?_, ?_, ?_, List.take_prefix _ _, ?_⟩
  · intro he
    refine ⟨render_ctx_block_factor _ fmtHM _ e he, ?_⟩
    have hne : msg.context_before ≠ [] := by
      intro h0
      rw [h0] at he
      simp at he
    rw [send_one, if_pos hne]
    simp
  · intro he
    refine ⟨render_ctx_block_factor _ fmtHM _ e he, ?_⟩
    have hne : msg.context_after ≠ [] := by
      intro h0
      rw [h0] at he
      simp at he
    rw [send_one, if_pos hne]
    simp
  · simp [List.length_take]
  · intro hlen
    simp [List.length_take]
    omega

/-- C10 witness: the 105-character context entry of `msg_c10` appears in
the rendered before-block cut to exactly its first 100 characters. -/
theorem c10_witness :
    (∃ pre post, render_ctx_block (s2l "📜 前の会話:\n") fmt_none msg_c10.context_before =
        pre ++ (long_entry.text.take 100 ++ post)) ∧
      render_ctx_block (s2l "📜 前の会話:\n") fmt_none msg_c10.context_before ∈
        send_one fmt_none fmt_none msg_c10 ∧
      (long_entry.text.take 100).length = 100 := by
  have h := c10_context_truncation fmt_none fmt_none msg_c10 long_entry
  have h1 := h.1 (by decide)
  exact ⟨h1.1, h1.2, h.2.2.2.2 (by decide)⟩

end TgLink
